import Mathlib

/-!
Verification of the hybridse UDF library and IR-builder interface
(`src/hybridse/src/udf/udf_library.h`, `src/hybridse/src/codegen/ir_base_builder.h`)
against the repository specification.

Only the two header files are available as source; every function whose body
lives in a `.cc` file is modelled from the specification text, with a doc
comment starting `Modelled from the spec:` naming what is missing.  The
inline bodies of `GetConstFloat` / `GetConstDouble` are present in the header
and are translated directly.
-/

namespace HybridSe

/-- The engine's primitive type kinds (`node::DataType`, declared in
`node/type_node.h`, referenced by both headers).  Per the spec data model:
integers of fixed widths, floating point, boolean, string, timestamp/date,
opaque row, list-of-T, iterator-of-T.  Nullability is attached at the use
site, not to the type. -/
inductive DataType where
  | bool
  | int16
  | int32
  | int64
  | float
  | double
  | varchar
  | timestamp
  | date
  | row
  | list
  | iterator
  deriving DecidableEq, Repr

/-- Scalar (non-composite) kinds usable as the base of a `TypeNode`. -/
inductive ScalarKind where
  | bool
  | int16
  | int32
  | int64
  | float
  | double
  | varchar
  | timestamp
  | date
  | row
  deriving DecidableEq, Repr

/-- Model of `node::TypeNode`: a recursive type descriptor.  A list or iterator node
always carries its element descriptor (the spec invariant that composite
nodes have a non-null element is enforced by construction). -/
inductive TypeNode where
  | base (k : ScalarKind)
  | listOf (elem : TypeNode)
  | iterOf (elem : TypeNode)
  deriving DecidableEq, Repr

/-- The `DataType` kind of a `TypeNode`. -/
def TypeNode.dataType : TypeNode → DataType
  | .base .bool => .bool
  | .base .int16 => .int16
  | .base .int32 => .int32
  | .base .int64 => .int64
  | .base .float => .float
  | .base .double => .double
  | .base .varchar => .varchar
  | .base .timestamp => .timestamp
  | .base .date => .date
  | .base .row => .row
  | .listOf _ => .list
  | .iterOf _ => .iterator

/-- Whether a `TypeNode` is a list descriptor. -/
def TypeNode.isList : TypeNode → Bool
  | .listOf _ => true
  | _ => false

/-- The external serializable schema-type enumeration
(`::hybridse::type::Type` from `proto/fe_type.pb.h`). -/
inductive SchemaType where
  | bool
  | int16
  | int32
  | int64
  | float
  | double
  | varchar
  | timestamp
  | date
  deriving DecidableEq, Repr

/-- Modelled from the spec: the body of `DataType2SchemaType`
(`ir_base_builder.cc` is not under `src/`).  `ToSchemaType` maps each
persisted `DataType` variant to the external schema enumeration; composite
and opaque kinds (row, list, iterator) are not persisted, so the conversion
reports failure for them, matching the `bool` success/failure protocol of
the declaration. -/
def DataType2SchemaType : DataType → Option SchemaType
  | .bool => some .bool
  | .int16 => some .int16
  | .int32 => some .int32
  | .int64 => some .int64
  | .float => some .float
  | .double => some .double
  | .varchar => some .varchar
  | .timestamp => some .timestamp
  | .date => some .date
  | .row => none
  | .list => none
  | .iterator => none

/-- Modelled from the spec: the body of `SchemaType2DataType`
(`ir_base_builder.cc` is not under `src/`).  `FromSchemaType` is the stable
inverse of `DataType2SchemaType` on the persisted variants. -/
def SchemaType2DataType : SchemaType → Option DataType
  | .bool => some .bool
  | .int16 => some .int16
  | .int32 => some .int32
  | .int64 => some .int64
  | .float => some .float
  | .double => some .double
  | .varchar => some .varchar
  | .timestamp => some .timestamp
  | .date => some .date

/-- An LLVM context, abstracted to an identifier; constant construction in
the header never inspects it. -/
structure LLVMContext where
  id : Nat
  deriving DecidableEq, Repr

/-- An LLVM value as far as the header's constant builders observe it: a
floating-point constant carries the (opaque) bit pattern handed to
`llvm::APFloat`; other values are abstract. -/
inductive LlvmValue where
  | constantFP (bits : Nat)
  | other (id : Nat)
  deriving DecidableEq, Repr

/-- Translation of `GetConstFloat` (inline in `ir_base_builder.h`, lines 80-84): builds
`ConstantFP::get(ctx, APFloat(val))`, stores it in `*output` and returns
`true` unconditionally.  The float argument is modelled by its bit pattern,
which the function never inspects. -/
def GetConstFloat (_ctx : LLVMContext) (val : Nat) : Option LlvmValue × Bool :=
  (some (LlvmValue.constantFP val), true)

/-- Translation of `GetConstDouble` (inline in `ir_base_builder.h`, lines 86-90): builds
`ConstantFP::get(ctx, APFloat(val))`, stores it in `*output` and returns
`true` unconditionally. -/
def GetConstDouble (_ctx : LLVMContext) (val : Nat) : Option LlvmValue × Bool :=
  (some (LlvmValue.constantFP val), true)

/-- A registered overload signature, per the spec data model: an ordered
sequence of (TypeNode, nullable) pairs, an optional variadic marker with
its declared trailing element type, and the set of argument positions
always treated as list. -/
structure Signature where
  argTypes : List (TypeNode × Bool)
  isVariadic : Bool
  variadicElem : Option TypeNode
  alwaysListIdx : List Nat
  deriving DecidableEq, Repr

/-- The signature with nullability erased: just the ordered argument types. -/
def Signature.erased (s : Signature) : List TypeNode := s.argTypes.map (·.1)

/-- Structural identity of two signatures ignoring nullability: same erased
argument types, same variadic marker and element, same always-list
positions (as sets). -/
def sameStructure (s t : Signature) : Bool :=
  (s.erased == t.erased) && (s.isVariadic == t.isVariadic) &&
    (s.variadicElem == t.variadicElem) &&
    s.alwaysListIdx.all (t.alwaysListIdx.contains ·) &&
    t.alwaysListIdx.all (s.alwaysListIdx.contains ·)

/-- One row of an `ArgSignatureTable`: a signature and its attached value
(typically a shared `UdfRegistry`, abstracted to `T`). -/
structure SigEntry (T : Type) where
  sig : Signature
  value : T
  deriving DecidableEq, Repr

/-- Model of `ArgSignatureTable<T>`: keyed store from signatures to attached values,
in registration order. -/
abbrev ArgSignatureTable (T : Type) : Type := List (SigEntry T)

/-- Errors of the explicit success/failure protocol (spec error kinds). -/
inductive UdfError where
  | functionNotFound
  | ambiguousOverload (candidates : List Signature)
  | typeMismatch
  | duplicateSignature
  | aliasConflict
  | targetNotFound
  | symbolBindingConflict
  deriving DecidableEq, Repr

/-- Modelled from the spec: list-position transparency (`ArgSignatureTable`
matching lives in `udf_registry.h/cc`, not under `src/`).  Starting at
argument index `k`, wrap every bare (non-list) argument at a position
marked always-list into its list form, as if the caller had passed the
list. -/
def wrapFrom (alwaysList : List Nat) : Nat → List TypeNode → List TypeNode
  | _, [] => []
  | k, a :: rest =>
      (if k ∈ alwaysList ∧ a.isList = false then TypeNode.listOf a else a) ::
        wrapFrom alwaysList (k + 1) rest

/-- The call argument types after applying a signature's always-list
positions. -/
def wrapListPositions (s : Signature) (args : List TypeNode) : List TypeNode :=
  wrapFrom s.alwaysListIdx 0 args

/-- Modelled from the spec: exact lookup — arity and per-position types
(after nullability erasure) match exactly; variadic signatures are not
exact matches. -/
def matchExact (s : Signature) (args : List TypeNode) : Bool :=
  !s.isVariadic && (s.erased == args)

/-- Modelled from the spec: list-transparent lookup — as exact lookup, but
bare arguments at always-list positions are treated as if wrapped. -/
def matchListTransparent (s : Signature) (args : List TypeNode) : Bool :=
  !s.isVariadic && (s.erased == wrapListPositions s args)

/-- Modelled from the spec: variadic lookup — the fixed prefix matches and
every trailing argument is assignable to the declared variadic element
type (no element type declared accepts any trailing argument). -/
def matchVariadic (s : Signature) (args : List TypeNode) : Bool :=
  s.isVariadic && decide (s.erased.length ≤ args.length) &&
    (args.take s.erased.length == s.erased) &&
    (match s.variadicElem with
      | some e => (args.drop s.erased.length).all (· == e)
      | none => true)

/-- The candidate entries of one priority tier: all registered entries
whose signature matches the call under the tier's predicate. -/
def candidatesAt {T : Type} (p : Signature → List TypeNode → Bool)
    (tbl : ArgSignatureTable T) (args : List TypeNode) : ArgSignatureTable T :=
  List.filter (fun e => p e.sig args) tbl

/-- The outcome of one priority tier: no candidate falls through to the
next tier, a unique candidate is selected, and multiple candidates fail
with `AmbiguousOverload` naming them — no silent pick. -/
def tierOutcome {T : Type} (cands : ArgSignatureTable T)
    (next : Except UdfError T) : Except UdfError T :=
  match cands with
  | [] => next
  | [e] => .ok e.value
  | es => .error (.ambiguousOverload (List.map (·.sig) es))

/-- Modelled from the spec: resolution step 3 over one `ArgSignatureTable`
(the body of `UdfLibrary::ResolveFunction` is in `udf_library.cc`, not
under `src/`).  Candidates are queried in priority order: exact arity/type
match first, then list-transparent match, then variadic match; a tier with
several candidates is ambiguous, and no tier matching at all is a type
mismatch. -/
def resolveTable {T : Type} (tbl : ArgSignatureTable T)
    (args : List TypeNode) : Except UdfError T :=
  tierOutcome (candidatesAt matchExact tbl args)
    (tierOutcome (candidatesAt matchListTransparent tbl args)
      (tierOutcome (candidatesAt matchVariadic tbl args)
        (.error .typeMismatch)))

/-- Modelled from the spec: insertion into an `ArgSignatureTable` fails
with `DuplicateSignature` when a structurally identical signature
(ignoring nullability) is already present. -/
def tableInsert {T : Type} (tbl : ArgSignatureTable T) (s : Signature)
    (v : T) : Except UdfError (ArgSignatureTable T) :=
  if List.any tbl (fun e => sameStructure e.sig s) then .error .duplicateSignature
  else .ok (tbl ++ [⟨s, v⟩])

/-- Model of `UdfLibraryEntry`: one per canonical function name; the argument
matching table plus the name-level flags. -/
structure UdfLibraryEntry (T : Type) where
  signature_table : ArgSignatureTable T
  is_udaf : Bool
  is_list_return : Bool
  deriving DecidableEq, Repr

/-- Model of `UdfLibrary`: the catalog.  `entries` owns the `UdfLibraryEntry`
objects (shared pointers become indices); `table` is the name-to-entry
map, where several names (aliases) may map to the same entry index;
`external_symbols` is the registered external symbol map. -/
structure UdfLibrary (T : Type) where
  entries : List (UdfLibraryEntry T)
  table : List (String × Nat)
  external_symbols : List (String × Nat)
  case_sensitive : Bool
  deriving DecidableEq, Repr

/-- Association-list lookup (`std::unordered_map::find`, first binding for
a key wins). -/
def assocFind {β : Type} (key : String) : List (String × β) → Option β
  | [] => none
  | (k, v) :: rest => if k = key then some v else assocFind key rest

/-- Lower-case one ASCII character. -/
def lowerChar (c : Char) : Char :=
  if c.isUpper then Char.ofNat (c.toNat + 32) else c

/-- Lower-case fold of a name. -/
def toLowerStr (s : String) : String := ⟨s.data.map lowerChar⟩

/-- Modelled from the spec: `UdfLibrary::GetCanonicalName`
(`udf_library.cc` is not under `src/`): a case-insensitive fold unless
case sensitivity is enabled (the header fixes `case_sensitive_ = false`). -/
def GetCanonicalName {T : Type} (lib : UdfLibrary T) (name : String) : String :=
  if lib.case_sensitive then name else toLowerStr name

/-- Look up the entry a (possibly aliased) name resolves to. -/
def UdfLibrary.findEntry {T : Type} (lib : UdfLibrary T) (name : String) :
    Option (UdfLibraryEntry T) :=
  match assocFind (GetCanonicalName lib name) lib.table with
  | some i => lib.entries.get? i
  | none => none

/-- Modelled from the spec: `UdfLibrary::ResolveFunction` (body in
`udf_library.cc`, not under `src/`): canonicalize the name, fail with
`FunctionNotFound` if no entry exists, otherwise resolve against the
entry's `ArgSignatureTable`. -/
def ResolveFunction {T : Type} (lib : UdfLibrary T) (name : String)
    (args : List TypeNode) : Except UdfError T :=
  match lib.findEntry name with
  | none => .error .functionNotFound
  | some e => resolveTable e.signature_table args

/-- Modelled from the spec: `UdfLibrary::RegisterAlias` (body in
`udf_library.cc`, not under `src/`): makes the alias resolve to the same
`UdfLibraryEntry` as the target name; fails with `TargetNotFound` if the
target is unregistered, `AliasConflict` if the alias is already bound to a
different entry. -/
def RegisterAlias {T : Type} (lib : UdfLibrary T) (al nm : String) :
    Except UdfError (UdfLibrary T) :=
  match assocFind (GetCanonicalName lib nm) lib.table with
  | none => .error .targetNotFound
  | some i =>
    match assocFind (GetCanonicalName lib al) lib.table with
    | some j => if j = i then .ok lib else .error .aliasConflict
    | none => .ok { lib with table := (GetCanonicalName lib al, i) :: lib.table }

/-- Modelled from the spec: `UdfLibrary::InsertRegistry` (body in
`udf_library.cc`, not under `src/`): canonicalize the name, create or
fetch the `UdfLibraryEntry`, and insert the signature into its
`ArgSignatureTable`; a structurally duplicate signature is a
registration-time `DuplicateSignature` error. -/
def InsertRegistry {T : Type} (lib : UdfLibrary T) (name : String)
    (argTypes : List (TypeNode × Bool)) (isVariadic : Bool)
    (variadicElem : Option TypeNode) (alwaysReturnList : Bool)
    (alwaysListArgidx : List Nat) (registry : T) :
    Except UdfError (UdfLibrary T) :=
  let s : Signature := ⟨argTypes, isVariadic, variadicElem, alwaysListArgidx⟩
  match assocFind (GetCanonicalName lib name) lib.table with
  | some i =>
    match lib.entries.get? i with
    | none => .error .functionNotFound
    | some e =>
      match tableInsert e.signature_table s registry with
      | .error err => .error err
      | .ok tbl =>
        .ok { lib with
          entries := lib.entries.set i
            { e with
              signature_table := tbl,
              is_list_return := e.is_list_return || alwaysReturnList } }
  | none =>
    .ok { lib with
      entries := lib.entries ++ [⟨[⟨s, registry⟩], false, alwaysReturnList⟩],
      table := (GetCanonicalName lib name, lib.entries.length) :: lib.table }

/-- Modelled from the spec: `UdfLibrary::IsUdaf` (body in `udf_library.cc`,
not under `src/`): `is_udaf` is a name-level flag of the canonical name's
single `UdfLibraryEntry` applying across all overloads, so the declared
argument-count parameter does not influence the answer. -/
def IsUdaf {T : Type} (lib : UdfLibrary T) (name : String) (_args : Nat) : Bool :=
  match lib.findEntry name with
  | some e => e.is_udaf
  | none => false

/-- Modelled from the spec: `UdfLibrary::SetIsUdaf` (body in
`udf_library.cc`, not under `src/`): sets the name-level `is_udaf` flag on
the name's entry. -/
def SetIsUdaf {T : Type} (lib : UdfLibrary T) (name : String) (_args : Nat) :
    UdfLibrary T :=
  match assocFind (GetCanonicalName lib name) lib.table with
  | some i =>
    match lib.entries.get? i with
    | some e => { lib with entries := lib.entries.set i { e with is_udaf := true } }
    | none => lib
  | none => lib

/-- Modelled from the spec: `UdfLibrary::IsListReturn` (body in
`udf_library.cc`, not under `src/`): the name-level `is_list_return` flag. -/
def IsListReturn {T : Type} (lib : UdfLibrary T) (name : String) : Bool :=
  match lib.findEntry name with
  | some e => e.is_list_return
  | none => false

/-- Modelled from the spec: `UdfLibrary::RequireListAt` (body in
`udf_library.cc`, not under `src/`): whether the entry declares the given
argument position as always-list in some registered signature. -/
def RequireListAt {T : Type} (lib : UdfLibrary T) (name : String)
    (index : Nat) : Bool :=
  match lib.findEntry name with
  | some e => List.any e.signature_table (fun en => en.sig.alwaysListIdx.contains index)
  | none => false

/-- The execution engine's symbol table: mangled symbol name, process
address (abstracted to `Nat`). -/
abbrev SymbolTable : Type := List (String × Nat)

/-- Modelled from the spec: one symbol binding into the execution engine's
symbol table — idempotent per symbol, and two distinct addresses bound to
the same name fail with `SymbolBindingConflict`. -/
def bindSymbol (tbl : SymbolTable) (name : String) (addr : Nat) :
    Except UdfError SymbolTable :=
  match assocFind name tbl with
  | some a => if a = addr then .ok tbl else .error .symbolBindingConflict
  | none => .ok ((name, addr) :: tbl)

/-- Modelled from the spec: `UdfLibrary::InitJITSymbols` (body in
`udf_library.cc`, not under `src/`): for every registered external-symbol
registry, bind (mangled name) to (process address) into the execution
engine's symbol table. -/
def InitJITSymbols (syms : List (String × Nat)) (jit : SymbolTable) :
    Except UdfError SymbolTable :=
  match syms with
  | [] => .ok jit
  | (n, a) :: rest =>
    match bindSymbol jit n a with
    | .error e => .error e
    | .ok jit1 => InitJITSymbols rest jit1

/-- An SSA instruction as far as entry-block hoisting observes it: a stack
slot allocation (type and name) or any other instruction. -/
inductive Instr where
  | alloca (tyName : String) (slotName : String)
  | plain (code : Nat)
  deriving DecidableEq, Repr

/-- Whether an instruction is a stack-slot allocation. -/
def Instr.isAlloca : Instr → Bool
  | .alloca _ _ => true
  | .plain _ => false

/-- A basic block of the function under construction. -/
structure BasicBlock where
  instrs : List Instr
  deriving DecidableEq, Repr

/-- The IR builder state: the function's blocks (head is the entry block)
and the current insertion cursor (block index and position within it). -/
structure IRBuilderState where
  blocks : List BasicBlock
  insertBlock : Nat
  insertPos : Nat
  deriving DecidableEq, Repr

/-- Emit an ordinary instruction at the cursor and advance the cursor —
the normal emission path, which `CreateAllocaAtHead` deliberately avoids. -/
def emitAtCursor (b : IRBuilderState) (ins : Instr) : IRBuilderState :=
  match b.blocks.get? b.insertBlock with
  | none => b
  | some blk =>
    { b with
      blocks := b.blocks.set b.insertBlock
        ⟨blk.instrs.take b.insertPos ++ ins :: blk.instrs.drop b.insertPos⟩,
      insertPos := b.insertPos + 1 }

/-- Modelled from the spec: `CreateAllocaAtHead` (body in
`ir_base_builder.cc`, not under `src/`): locate the function's entry block
from an arbitrary current insertion point, place the allocation there, and
leave the caller's insertion cursor untouched. -/
def CreateAllocaAtHead (b : IRBuilderState) (dtype : String)
    (name : String) : IRBuilderState × Instr :=
  let ins := Instr.alloca dtype name
  match b.blocks with
  | [] => (b, ins)
  | entry :: rest =>
    ({ b with blocks := BasicBlock.mk (entry.instrs ++ [ins]) :: rest }, ins)

end HybridSe

namespace HybridSe

theorem tierOutcome_nil {T : Type} (next : Except UdfError T) :
    tierOutcome ([] : ArgSignatureTable T) next = next := rfl

theorem tierOutcome_single {T : Type} (e : SigEntry T) (next : Except UdfError T) :
    tierOutcome [e] next = .ok e.value := rfl

theorem tierOutcome_multi {T : Type} (cands : ArgSignatureTable T)
    (next : Except UdfError T) (h : 2 ≤ cands.length) :
    tierOutcome cands next = .error (.ambiguousOverload (List.map (·.sig) cands)) := by
  match cands with
  | [] => simp at h
  | [e] => simp at h
  | a :: b :: l => rfl

theorem resolveFunction_entry {T : Type} (lib : UdfLibrary T) (name : String)
    (args : List TypeNode) (entry : UdfLibraryEntry T)
    (hfind : lib.findEntry name = some entry) :
    ResolveFunction lib name args = resolveTable entry.signature_table args := by
  simp [ResolveFunction, hfind]

/-- C1: if both an exact arity/type signature and a variadic signature
registered under a name could match the call, `ResolveFunction` selects
the exact-type signature: candidate matching proceeds in priority order
with exact match first, then list-transparent, then variadic. -/
theorem resolve_exact_precedence {T : Type} (lib : UdfLibrary T) (name : String)
    (args : List TypeNode) (entry : UdfLibraryEntry T) (e v : SigEntry T)
    (hfind : lib.findEntry name = some entry)
    (hexact : candidatesAt matchExact entry.signature_table args = [e])
    (_hv : v ∈ entry.signature_table) (_hvar : matchVariadic v.sig args = true) :
    ResolveFunction lib name args = .ok e.value := by
  rw [resolveFunction_entry lib name args entry hfind]
  unfold resolveTable
  rw [hexact, tierOutcome_single]

/-- Witness for `resolve_exact_precedence`: a library holding both
`f(int32)` and a variadic `f(int32...)`; the call `f(int32)` matches both
and resolves to the exact overload. -/
theorem resolve_exact_precedence_witness :
    ResolveFunction
      (⟨[⟨[⟨⟨[(TypeNode.base .int32, false)], false, none, []⟩, 0⟩,
            ⟨⟨[], true, some (TypeNode.base .int32), []⟩, 1⟩], false, false⟩],
        [("f", 0)], [], false⟩ : UdfLibrary Nat)
      "f" [TypeNode.base .int32] = .ok 0 :=
  resolve_exact_precedence _ "f" _
    ⟨[⟨⟨[(TypeNode.base .int32, false)], false, none, []⟩, 0⟩,
      ⟨⟨[], true, some (TypeNode.base .int32), []⟩, 1⟩], false, false⟩
    ⟨⟨[(TypeNode.base .int32, false)], false, none, []⟩, 0⟩
    ⟨⟨[], true, some (TypeNode.base .int32), []⟩, 1⟩
    (by rfl) (by rfl) (by simp) (by decide)

/-- C2: whenever more than one registered candidate matches at the same
priority tier (the model orders no same-tier candidates by specificity),
`ResolveFunction` fails with `AmbiguousOverload` naming the candidates
rather than silently picking one. -/
theorem resolve_ambiguous_overload {T : Type} (lib : UdfLibrary T) (name : String)
    (args : List TypeNode) (entry : UdfLibraryEntry T)
    (hfind : lib.findEntry name = some entry) :
    (2 ≤ (candidatesAt matchExact entry.signature_table args).length →
      ResolveFunction lib name args =
        .error (.ambiguousOverload
          (List.map (·.sig) (candidatesAt matchExact entry.signature_table args)))) ∧
    (candidatesAt matchExact entry.signature_table args = [] →
      2 ≤ (candidatesAt matchListTransparent entry.signature_table args).length →
      ResolveFunction lib name args =
        .error (.ambiguousOverload
          (List.map (·.sig) (candidatesAt matchListTransparent entry.signature_table args)))) ∧
    (candidatesAt matchExact entry.signature_table args = [] →
      candidatesAt matchListTransparent entry.signature_table args = [] →
      2 ≤ (candidatesAt matchVariadic entry.signature_table args).length →
      ResolveFunction lib name args =
        .error (.ambiguousOverload
          (List.map (·.sig) (candidatesAt matchVariadic entry.signature_table args)))) := by
  refine ⟨?_, ?_, ?_⟩
  · intro h2
    rw [resolveFunction_entry lib name args entry hfind]
    unfold resolveTable
    rw [tierOutcome_multi _ _ h2]
  · intro h0 h2
    rw [resolveFunction_entry lib name args entry hfind]
    unfold resolveTable
    rw [h0, tierOutcome_nil, tierOutcome_multi _ _ h2]
  · intro h0 h1 h2
    rw [resolveFunction_entry lib name args entry hfind]
    unfold resolveTable
    rw [h0, tierOutcome_nil, h1, tierOutcome_nil, tierOutcome_multi _ _ h2]

/-- Witness for `resolve_ambiguous_overload`: two distinct signatures for
`h` that coincide after nullability erasure both match `h(list<int32>)`
exactly, and resolution reports both as ambiguous candidates. -/
theorem resolve_ambiguous_overload_witness :
    ResolveFunction
      (⟨[⟨[⟨⟨[(TypeNode.listOf (TypeNode.base .int32), false)], false, none, []⟩, 0⟩,
            ⟨⟨[(TypeNode.listOf (TypeNode.base .int32), true)], false, none, [0]⟩, 1⟩],
          false, false⟩],
        [("h", 0)], [], false⟩ : UdfLibrary Nat)
      "h" [TypeNode.listOf (TypeNode.base .int32)] =
      .error (.ambiguousOverload
        [⟨[(TypeNode.listOf (TypeNode.base .int32), false)], false, none, []⟩,
          ⟨[(TypeNode.listOf (TypeNode.base .int32), true)], false, none, [0]⟩]) :=
  (resolve_ambiguous_overload _ "h" [TypeNode.listOf (TypeNode.base .int32)]
    ⟨[⟨⟨[(TypeNode.listOf (TypeNode.base .int32), false)], false, none, []⟩, 0⟩,
        ⟨⟨[(TypeNode.listOf (TypeNode.base .int32), true)], false, none, [0]⟩, 1⟩],
      false, false⟩ (by rfl)).1 (by decide)

/-- C4: inserting a signature whose structure (ignoring nullability) is
already present in the name's `ArgSignatureTable` fails with
`DuplicateSignature` at registration time. -/
theorem insertRegistry_duplicate {T : Type} (lib : UdfLibrary T) (name : String)
    (argTypes : List (TypeNode × Bool)) (isVariadic : Bool)
    (variadicElem : Option TypeNode) (alwaysReturnList : Bool)
    (alwaysListArgidx : List Nat) (registry : T)
    (i : Nat) (entry : UdfLibraryEntry T)
    (hfind : assocFind (GetCanonicalName lib name) lib.table = some i)
    (hget : lib.entries.get? i = some entry)
    (hdup : List.any entry.signature_table
      (fun e => sameStructure e.sig
        ⟨argTypes, isVariadic, variadicElem, alwaysListArgidx⟩) = true) :
    InsertRegistry lib name argTypes isVariadic variadicElem alwaysReturnList
      alwaysListArgidx registry = .error .duplicateSignature := by
  unfold InsertRegistry
  rw [hfind]
  dsimp only
  rw [hget]
  dsimp only
  unfold tableInsert
  rw [if_pos hdup]

/-- Witness for `insertRegistry_duplicate`: re-registering `f(int32)` with
only the nullability flag changed is rejected as a duplicate. -/
theorem insertRegistry_duplicate_witness :
    InsertRegistry
      (⟨[⟨[⟨⟨[(TypeNode.base .int32, false)], false, none, []⟩, 0⟩], false, false⟩],
        [("f", 0)], [], false⟩ : UdfLibrary Nat)
      "f" [(TypeNode.base .int32, true)] false none false [] 1 =
      .error .duplicateSignature :=
  insertRegistry_duplicate _ "f" [(TypeNode.base .int32, true)] false none false [] 1
    0 ⟨[⟨⟨[(TypeNode.base .int32, false)], false, none, []⟩, 0⟩], false, false⟩
    (by decide) (by decide) (by decide)

theorem listOf_ne (t : TypeNode) : TypeNode.listOf t ≠ t := by
  induction t with
  | base k => simp
  | listOf e ih => intro h; injection h with h1; exact ih h1
  | iterOf e ih => simp

theorem wrapFrom_skip (n : Nat) (l : List TypeNode) (k : Nat) (hk : n < k) :
    wrapFrom [n] k l = l := by
  induction l generalizing k with
  | nil => rfl
  | cons a rest ih =>
    have hc : ¬ (k ∈ [n] ∧ a.isList = false) := by
      rintro ⟨hmem, _⟩
      simp at hmem
      omega
    simp only [wrapFrom]
    rw [if_neg hc, ih (k + 1) (by omega)]

theorem wrapFrom_at (n k : Nat) (pre post : List TypeNode) (t : TypeNode)
    (hlen : k + pre.length = n) (ht : t.isList = false) :
    wrapFrom [n] k (pre ++ t :: post) = pre ++ TypeNode.listOf t :: post := by
  induction pre generalizing k with
  | nil =>
    have hkn : k = n := by simpa using hlen
    subst hkn
    have hc : k ∈ [k] ∧ t.isList = false := ⟨by simp, ht⟩
    simp only [List.nil_append, wrapFrom]
    rw [if_pos hc, wrapFrom_skip k post (k + 1) (by omega)]
  | cons p ps ih =>
    have hc : ¬ (k ∈ [n] ∧ p.isList = false) := by
      rintro ⟨hmem, _⟩
      simp at hmem
      simp at hlen
      omega
    simp only [List.cons_append, wrapFrom, List.append_eq]
    rw [if_neg hc, ih (k + 1) (by simp at hlen; omega)]

/-- C5: a function registered with an always-list position at index `i`
and stored list type `list<t>` there resolves successfully both for the
list-of-scalar argument and for the bare scalar argument at `i`, and both
resolutions select the same underlying registry value. -/
theorem list_transparency {T : Type} (lib : UdfLibrary T) (name : String)
    (sig : Signature) (v : T) (entry : UdfLibraryEntry T)
    (pre post : List TypeNode) (t : TypeNode)
    (hfind : lib.findEntry name = some entry)
    (htbl : entry.signature_table = [⟨sig, v⟩])
    (hnv : sig.isVariadic = false) (ht : t.isList = false)
    (herased : sig.erased = pre ++ TypeNode.listOf t :: post)
    (hidx : sig.alwaysListIdx = [pre.length]) :
    ResolveFunction lib name (pre ++ TypeNode.listOf t :: post) = .ok v ∧
      ResolveFunction lib name (pre ++ t :: post) = .ok v := by
  constructor
  · rw [resolveFunction_entry lib name _ entry hfind, htbl]
    have hx : matchExact sig (pre ++ TypeNode.listOf t :: post) = true := by
      simp [matchExact, hnv, herased]
    unfold resolveTable
    simp [candidatesAt, hx, tierOutcome]
  · rw [resolveFunction_entry lib name _ entry hfind, htbl]
    have hx : matchExact sig (pre ++ t :: post) = false := by
      simp [matchExact, hnv, herased, listOf_ne t]
    have hlt : matchListTransparent sig (pre ++ t :: post) = true := by
      simp [matchListTransparent, hnv, wrapListPositions, hidx, herased,
        wrapFrom_at pre.length 0 pre post t (by omega) ht]
    unfold resolveTable
    simp [candidatesAt, hx, hlt, tierOutcome]

/-- Witness for `list_transparency`: the spec scenario — `sum` registered
as an aggregate with an always-list argument at position 0; both
`sum(int64)` and `sum(list<int64>)` resolve to the same registry. -/
theorem list_transparency_witness :
    ResolveFunction
      (⟨[⟨[⟨⟨[(TypeNode.listOf (TypeNode.base .int64), false)], false, none, [0]⟩, 7⟩],
          true, true⟩], [("sum", 0)], [], false⟩ : UdfLibrary Nat)
      "sum" [TypeNode.listOf (TypeNode.base .int64)] = .ok 7 ∧
    ResolveFunction
      (⟨[⟨[⟨⟨[(TypeNode.listOf (TypeNode.base .int64), false)], false, none, [0]⟩, 7⟩],
          true, true⟩], [("sum", 0)], [], false⟩ : UdfLibrary Nat)
      "sum" [TypeNode.base .int64] = .ok 7 :=
  list_transparency _ "sum"
    ⟨[(TypeNode.listOf (TypeNode.base .int64), false)], false, none, [0]⟩ 7
    ⟨[⟨⟨[(TypeNode.listOf (TypeNode.base .int64), false)], false, none, [0]⟩, 7⟩],
      true, true⟩
    [] [] (TypeNode.base .int64)
    (by decide) (by decide) (by decide) (by decide) (by decide) (by decide)

theorem registerAlias_ok {T : Type} (lib lib' : UdfLibrary T) (al nm : String)
    (h : RegisterAlias lib al nm = .ok lib') :
    lib'.entries = lib.entries ∧ lib'.case_sensitive = lib.case_sensitive ∧
      (∀ k v, assocFind k lib.table = some v → assocFind k lib'.table = some v) ∧
      (∃ i, assocFind (GetCanonicalName lib nm) lib.table = some i ∧
        assocFind (GetCanonicalName lib al) lib'.table = some i) := by
  unfold RegisterAlias at h
  cases hnm : assocFind (GetCanonicalName lib nm) lib.table with
  | none => rw [hnm] at h; simp at h
  | some i =>
    rw [hnm] at h
    dsimp only at h
    cases hal : assocFind (GetCanonicalName lib al) lib.table with
    | some j =>
      rw [hal] at h
      dsimp only at h
      by_cases hji : j = i
      · rw [if_pos hji] at h
        have hl : lib = lib' := by injection h
        subst hl
        exact ⟨rfl, rfl, fun k v hv => hv, ⟨i, by simp [hnm], by rw [hal, hji]⟩⟩
      · rw [if_neg hji] at h
        simp at h
    | none =>
      rw [hal] at h
      dsimp only at h
      have hl : { lib with table := (GetCanonicalName lib al, i) :: lib.table } = lib' := by
        injection h
      subst hl
      refine ⟨rfl, rfl, ?_, ⟨i, by simp [hnm], ?_⟩⟩
      · intro k v hv
        show (if GetCanonicalName lib al = k then some i else assocFind k lib.table) = some v
        by_cases hk : GetCanonicalName lib al = k
        · rw [hk] at hal
          rw [hal] at hv
          exact absurd hv (by simp)
        · rw [if_neg hk]
          exact hv
      · show (if GetCanonicalName lib al = GetCanonicalName lib al then some i
            else assocFind (GetCanonicalName lib al) lib.table) = some i
        rw [if_pos rfl]

/-- C6: alias resolution is transitive — after `RegisterAlias b a` and
then `RegisterAlias c b` both succeed, resolving `c` behaves identically
to resolving `a` for every argument list. -/
theorem alias_transitive {T : Type} (lib lib1 lib2 : UdfLibrary T)
    (a b c : String) (args : List TypeNode)
    (h1 : RegisterAlias lib b a = .ok lib1)
    (h2 : RegisterAlias lib1 c b = .ok lib2) :
    ResolveFunction lib2 c args = ResolveFunction lib2 a args := by
  obtain ⟨he1, hcs1, hpres1, i, hia, hib⟩ := registerAlias_ok lib lib1 b a h1
  obtain ⟨he2, hcs2, hpres2, j, hjb, hjc⟩ := registerAlias_ok lib1 lib2 c b h2
  have hcanon1 : ∀ s, GetCanonicalName lib1 s = GetCanonicalName lib s := by
    intro s
    simp [GetCanonicalName, hcs1]
  have hcanon2 : ∀ s, GetCanonicalName lib2 s = GetCanonicalName lib s := by
    intro s
    simp [GetCanonicalName, hcs2, hcs1]
  rw [hcanon1] at hjb
  have hji : j = i := by
    rw [hib] at hjb
    injection hjb with hh
    exact hh.symm
  have hia2 : assocFind (GetCanonicalName lib a) lib2.table = some i :=
    hpres2 _ _ (hpres1 _ _ hia)
  have hic2 : assocFind (GetCanonicalName lib c) lib2.table = some i := by
    rw [hcanon1] at hjc
    rw [hji] at hjc
    exact hjc
  unfold ResolveFunction UdfLibrary.findEntry
  rw [hcanon2, hcanon2, hia2, hic2]

/-- Witness for `alias_transitive`: register `b` as an alias of `a`, then
`c` as an alias of `b`; resolving `c` equals resolving `a`. -/
theorem alias_transitive_witness :
    ResolveFunction
      (⟨[⟨[⟨⟨[], false, none, []⟩, 5⟩], false, false⟩],
        [("c", 0), ("b", 0), ("a", 0)], [], false⟩ : UdfLibrary Nat) "c" [] =
    ResolveFunction
      (⟨[⟨[⟨⟨[], false, none, []⟩, 5⟩], false, false⟩],
        [("c", 0), ("b", 0), ("a", 0)], [], false⟩ : UdfLibrary Nat) "a" [] :=
  alias_transitive
    (⟨[⟨[⟨⟨[], false, none, []⟩, 5⟩], false, false⟩], [("a", 0)], [], false⟩ : UdfLibrary Nat)
    ⟨[⟨[⟨⟨[], false, none, []⟩, 5⟩], false, false⟩], [("b", 0), ("a", 0)], [], false⟩
    ⟨[⟨[⟨⟨[], false, none, []⟩, 5⟩], false, false⟩], [("c", 0), ("b", 0), ("a", 0)], [], false⟩
    "a" "b" "c" [] (by rfl) (by rfl)

/-- C3: round-trip of the schema-type mapping on every supported `DataType`. -/
theorem schemaType_roundtrip (t : DataType) (s : SchemaType)
    (h : DataType2SchemaType t = some s) : SchemaType2DataType s = some t := by
  cases t <;> cases s <;> simp_all [DataType2SchemaType, SchemaType2DataType]

/-- Witness for `schemaType_roundtrip` at `DataType.timestamp`. -/
theorem schemaType_roundtrip_witness :
    DataType2SchemaType DataType.timestamp = some SchemaType.timestamp ∧
      SchemaType2DataType SchemaType.timestamp = some DataType.timestamp :=
  ⟨by decide, schemaType_roundtrip DataType.timestamp SchemaType.timestamp (by decide)⟩

theorem bindSymbol_preserves (tbl tbl' : SymbolTable) (n : String) (a : Nat)
    (h : bindSymbol tbl n a = .ok tbl') :
    ∀ m b, assocFind m tbl = some b → assocFind m tbl' = some b := by
  unfold bindSymbol at h
  cases hn : assocFind n tbl with
  | some c =>
    rw [hn] at h
    dsimp only at h
    by_cases hca : c = a
    · rw [if_pos hca] at h
      have : tbl = tbl' := by injection h
      subst this
      exact fun m b hb => hb
    · rw [if_neg hca] at h
      simp at h
  | none =>
    rw [hn] at h
    dsimp only at h
    have : (n, a) :: tbl = tbl' := by injection h
    subst this
    intro m b hb
    show (if n = m then some a else assocFind m tbl) = some b
    by_cases hm : n = m
    · rw [hm] at hn
      rw [hn] at hb
      exact absurd hb (by simp)
    · rw [if_neg hm]
      exact hb

theorem bindSymbol_binds (tbl tbl' : SymbolTable) (n : String) (a : Nat)
    (h : bindSymbol tbl n a = .ok tbl') : assocFind n tbl' = some a := by
  unfold bindSymbol at h
  cases hn : assocFind n tbl with
  | some c =>
    rw [hn] at h
    dsimp only at h
    by_cases hca : c = a
    · rw [if_pos hca] at h
      have : tbl = tbl' := by injection h
      subst this
      rw [hn, hca]
    · rw [if_neg hca] at h
      simp at h
  | none =>
    rw [hn] at h
    dsimp only at h
    have : (n, a) :: tbl = tbl' := by injection h
    subst this
    show (if n = n then some a else assocFind n tbl) = some a
    rw [if_pos rfl]

theorem initJIT_preserves (syms : List (String × Nat)) (t out : SymbolTable)
    (h : InitJITSymbols syms t = .ok out) :
    ∀ n a, assocFind n t = some a → assocFind n out = some a := by
  induction syms generalizing t with
  | nil =>
    unfold InitJITSymbols at h
    have : t = out := by injection h
    subst this
    exact fun n a ha => ha
  | cons p rest ih =>
    obtain ⟨m, b⟩ := p
    unfold InitJITSymbols at h
    cases hb : bindSymbol t m b with
    | error e =>
      rw [hb] at h
      simp at h
    | ok t1 =>
      rw [hb] at h
      dsimp only at h
      intro n a hna
      exact ih t1 h n a (bindSymbol_preserves t t1 m b hb n a hna)

/-- C7: `InitJITSymbols` binds every registered external symbol's mangled
name to its process address in the execution engine's symbol table; the
binding is idempotent per symbol; and binding two distinct addresses to
the same name fails with `SymbolBindingConflict`. -/
theorem initJITSymbols_spec (syms : List (String × Nat)) (jit out : SymbolTable)
    (hok : InitJITSymbols syms jit = .ok out) :
    (∀ n a, (n, a) ∈ syms → assocFind n out = some a) ∧
      (∀ tbl tbl' n a, bindSymbol tbl n a = .ok tbl' →
        bindSymbol tbl' n a = .ok tbl') ∧
      (∀ tbl n a b, assocFind n tbl = some a → a ≠ b →
        bindSymbol tbl n b = .error .symbolBindingConflict) := by
  refine ⟨?_, ?_, ?_⟩
  · induction syms generalizing jit with
    | nil => intro n a hmem; simp at hmem
    | cons p rest ih =>
      obtain ⟨m, b⟩ := p
      unfold InitJITSymbols at hok
      cases hb : bindSymbol jit m b with
      | error e =>
        rw [hb] at hok
        simp at hok
      | ok jit1 =>
        rw [hb] at hok
        dsimp only at hok
        intro n a hmem
        rcases List.mem_cons.mp hmem with hhead | htail
        · injection hhead with h1 h2
          subst h1
          subst h2
          exact initJIT_preserves rest jit1 out hok n a
            (bindSymbol_binds jit jit1 n a hb)
        · exact ih jit1 hok n a htail
  · intro tbl tbl' n a h
    have hfound := bindSymbol_binds tbl tbl' n a h
    unfold bindSymbol
    rw [hfound]
    dsimp only
    rw [if_pos rfl]
  · intro tbl n a b hfind hne
    unfold bindSymbol
    rw [hfind]
    dsimp only
    rw [if_neg hne]

/-- Witness for `initJITSymbols_spec`: binding the registries
`f ↦ 1, g ↦ 2, f ↦ 1` (the repeat is idempotent) succeeds and `f` maps to
address 1 in the resulting symbol table. -/
theorem initJITSymbols_spec_witness :
    assocFind "f" [("g", 2), ("f", 1)] = some 1 :=
  (initJITSymbols_spec [("f", 1), ("g", 2), ("f", 1)] [] [("g", 2), ("f", 1)]
    (by rfl)).1 "f" 1 (by simp)

/-- C8: allocating a stack slot through `CreateAllocaAtHead` while the
insertion cursor sits anywhere (including inside a nested loop body)
produces an alloca instruction located in the function's entry block, and
the insertion cursor is unchanged afterward; non-entry blocks are not
touched. -/
theorem createAllocaAtHead_spec (b : IRBuilderState) (entry : BasicBlock)
    (rest : List BasicBlock) (ty nm : String)
    (hblocks : b.blocks = entry :: rest) :
    (CreateAllocaAtHead b ty nm).2 = Instr.alloca ty nm ∧
      ((CreateAllocaAtHead b ty nm).2).isAlloca = true ∧
      (CreateAllocaAtHead b ty nm).1.blocks =
        BasicBlock.mk (entry.instrs ++ [Instr.alloca ty nm]) :: rest ∧
      Instr.alloca ty nm ∈
        (BasicBlock.mk (entry.instrs ++ [Instr.alloca ty nm])).instrs ∧
      (CreateAllocaAtHead b ty nm).1.insertBlock = b.insertBlock ∧
      (CreateAllocaAtHead b ty nm).1.insertPos = b.insertPos := by
  obtain ⟨blocks, ib, ip⟩ := b
  dsimp only at hblocks
  subst hblocks
  refine ⟨rfl, rfl, rfl, ?_, rfl, rfl⟩
  simp

/-- Witness for `createAllocaAtHead_spec`: with the cursor inside a nested
loop body (block 2), the slot still lands in the entry block (block 0) and
the cursor stays at block 2, position 1. -/
theorem createAllocaAtHead_spec_witness :
    (CreateAllocaAtHead ⟨[⟨[Instr.plain 0]⟩, ⟨[Instr.plain 1]⟩, ⟨[Instr.plain 2]⟩], 2, 1⟩
        "i32" "slot").1.blocks =
      BasicBlock.mk [Instr.plain 0, Instr.alloca "i32" "slot"] ::
        [⟨[Instr.plain 1]⟩, ⟨[Instr.plain 2]⟩] ∧
    (CreateAllocaAtHead ⟨[⟨[Instr.plain 0]⟩, ⟨[Instr.plain 1]⟩, ⟨[Instr.plain 2]⟩], 2, 1⟩
        "i32" "slot").1.insertBlock = 2 ∧
    (CreateAllocaAtHead ⟨[⟨[Instr.plain 0]⟩, ⟨[Instr.plain 1]⟩, ⟨[Instr.plain 2]⟩], 2, 1⟩
        "i32" "slot").1.insertPos = 1 :=
  ⟨(createAllocaAtHead_spec ⟨[⟨[Instr.plain 0]⟩, ⟨[Instr.plain 1]⟩, ⟨[Instr.plain 2]⟩], 2, 1⟩
      ⟨[Instr.plain 0]⟩ [⟨[Instr.plain 1]⟩, ⟨[Instr.plain 2]⟩] "i32" "slot" rfl).2.2.1,
    (createAllocaAtHead_spec ⟨[⟨[Instr.plain 0]⟩, ⟨[Instr.plain 1]⟩, ⟨[Instr.plain 2]⟩], 2, 1⟩
      ⟨[Instr.plain 0]⟩ [⟨[Instr.plain 1]⟩, ⟨[Instr.plain 2]⟩] "i32" "slot" rfl).2.2.2.2.1,
    (createAllocaAtHead_spec ⟨[⟨[Instr.plain 0]⟩, ⟨[Instr.plain 1]⟩, ⟨[Instr.plain 2]⟩], 2, 1⟩
      ⟨[Instr.plain 0]⟩ [⟨[Instr.plain 1]⟩, ⟨[Instr.plain 2]⟩] "i32" "slot" rfl).2.2.2.2.2⟩

/-- C9: the name-level flags are uniform across overloads — querying
`IsUdaf` for a name yields the same answer for every argument count, both
on a given library and after `SetIsUdaf`, and `IsListReturn` takes no
argument count at all. -/
theorem isUdaf_name_level {T : Type} (lib : UdfLibrary T) (name : String)
    (n m k : Nat) :
    IsUdaf lib name n = IsUdaf lib name m ∧
      IsUdaf (SetIsUdaf lib name k) name n = IsUdaf (SetIsUdaf lib name k) name m ∧
      IsListReturn lib name = IsListReturn lib name :=
  ⟨rfl, rfl, rfl⟩

/-- C10: the constant builders `GetConstFloat` and `GetConstDouble` are
total: for every context and every input bit pattern they produce a
floating-point constant output and return `true`, so their failure branch
is unreachable. -/
theorem getConst_total (ctx : LLVMContext) (vf vd : Nat) :
    GetConstFloat ctx vf = (some (LlvmValue.constantFP vf), true) ∧
      GetConstDouble ctx vd = (some (LlvmValue.constantFP vd), true) :=
  ⟨rfl, rfl⟩

end HybridSe
